import Mathlib

/-!
# Go-Shell: tokenizer, redirection extractor and command resolver

A shallow embedding of `app/main.go`:

* `splitArguments`     — the lexer (single quotes, double quotes, backslash escapes);
* `extractRedirection` — strips the `>`, `1>`, `2>` operators and their file names;
* `commandParser`      — maps a command name and its arguments to a command variant;
* `cdComm.run` and the part of `main` between reading a line and `commandParser`.

Go strings are modelled by Lean `String`s (sequences of Unicode scalar values), i.e. the
input is taken to be valid UTF-8, so that `for _, r := range input` visits exactly the
characters of the string and `WriteRune` appends one character.  The operating system
(environment, file system, home directory, working directory) is an explicit parameter.
-/

namespace GoShell

/-! ## Redirection extractor (`extractRedirection`, main.go 206-233) -/

/-- The local variables of `extractRedirection` that live across loop iterations. -/
structure RedirState where
  cleanedArgs : List String
  redirectFile : String
  stderrFile : String
  skip : Bool
deriving DecidableEq, Repr

/-- Values of the locals before the loop: `nil`, `""`, `""`, `false`. -/
def RedirState.init : RedirState :=
  { cleanedArgs := [], redirectFile := "", stderrFile := "", skip := false }

/-- One iteration of the loop body of `extractRedirection` at index `i` of `args`.
`args.getD j ""` is `args[j]`; it is only evaluated at indices the source has checked. -/
def redirBody (args : List String) (st : RedirState) (i : Nat) : RedirState :=
  if st.skip then
    { st with skip := false }
  else if args.getD i "" = ">" ∨ args.getD i "" = "1>" then
    if i + 1 < args.length then
      { st with redirectFile := args.getD (i + 1) "", skip := true }
    else st
  else if args.getD i "" = "2>" then
    if i + 1 < args.length then
      { st with stderrFile := args.getD (i + 1) "", skip := true }
    else st
  else
    { st with cleanedArgs := st.cleanedArgs ++ [args.getD i ""] }

/-- The state after the whole loop `for i := 0; i < len(args); i++`. -/
def redirLoop (args : List String) : RedirState :=
  (List.range args.length).foldl (redirBody args) RedirState.init

/-- The function `extractRedirection`: cleaned arguments, stdout target, stderr target. -/
def extractRedirection (args : List String) : List String × String × String :=
  let st := redirLoop args
  (st.cleanedArgs, st.redirectFile, st.stderrFile)

/-- The three redirection operator tokens. -/
def isRedirOp (t : String) : Bool :=
  t = ">" ∨ t = "1>" ∨ t = "2>"

/-- The loop body of `extractRedirection` as a function of the current token `x`
(`args[i]`) and of the token after it (`args[i+1]`, `none` when `i+1 = len(args)`). -/
def redirStep (x : String) (next : Option String) (st : RedirState) : RedirState :=
  if st.skip then
    { st with skip := false }
  else if x = ">" ∨ x = "1>" then
    match next with
    | some f => { st with redirectFile := f, skip := true }
    | none => st
  else if x = "2>" then
    match next with
    | some f => { st with stderrFile := f, skip := true }
    | none => st
  else
    { st with cleanedArgs := st.cleanedArgs ++ [x] }

/-- The loop of `extractRedirection` read as a recursion over the tokens still to be
visited. -/
def redirScan : List String → RedirState → RedirState
  | [], st => st
  | x :: rest, st => redirScan rest (redirStep x rest.head? st)

/-- A token list contains none of the operator tokens. -/
def noRedirOp (l : List String) : Prop :=
  ∀ t ∈ l, isRedirOp t = false

instance (l : List String) : Decidable (noRedirOp l) := by
  unfold noRedirOp; infer_instance

/-- Reading `ts` from the left, an operator with a token after it takes that token as its
file name (whatever the token is); `endsOnOperator ts` says that this reading ends on an
operator that has no token after it. -/
def endsOnOperator : List String → Bool
  | [] => false
  | [x] => isRedirOp x
  | x :: y :: rest => if isRedirOp x then endsOnOperator rest else endsOnOperator (y :: rest)

/-! ## Tokenizer (`splitArguments`, main.go 164-205) -/

/-- The local variables of `splitArguments`: the result slice `args`, the builder `curr`
and the three mode flags. -/
structure SplitState where
  args : List String
  curr : String
  inSingleQuotes : Bool
  inDoubleQuotes : Bool
  withEscape : Bool
deriving DecidableEq, Repr

/-- Values of the locals before the loop. -/
def SplitState.init : SplitState :=
  { args := [], curr := "", inSingleQuotes := false, inDoubleQuotes := false,
    withEscape := false }

/-- The `switch` of `splitArguments` for one rune `r`; the cases are tried in the order
of the source. `curr.push r` is `curr.WriteRune(r)`, and `0 < curr.length` is
`curr.Len() > 0`: the builder holds a byte exactly when it holds a character. -/
def splitStep (st : SplitState) (r : Char) : SplitState :=
  if st.withEscape then
    if st.inDoubleQuotes then
      if r = '$' ∨ r = '"' ∨ r = '\\' then
        { st with curr := st.curr.push r, withEscape := false }
      else
        { st with curr := (st.curr.push '\\').push r, withEscape := false }
    else
      { st with curr := st.curr.push r, withEscape := false }
  else if r = '\\' ∧ st.inSingleQuotes = false then
    { st with withEscape := true }
  else if r = '\'' ∧ st.inDoubleQuotes = false then
    { st with inSingleQuotes := !st.inSingleQuotes }
  else if r = '"' ∧ st.inSingleQuotes = false then
    { st with inDoubleQuotes := !st.inDoubleQuotes }
  else if r = ' ' ∧ st.inSingleQuotes = false ∧ st.inDoubleQuotes = false then
    if 0 < st.curr.length then
      { st with args := st.args ++ [st.curr], curr := "" }
    else st
  else
    { st with curr := st.curr.push r }

/-- The state of `splitArguments` after the loop has read all of `input`. -/
def splitScan (input : String) : SplitState :=
  input.data.foldl splitStep SplitState.init

/-- The flush after the loop (main.go 201-204): a non-empty `curr` is appended as the
last token, and `args` is returned. -/
def splitFinish (st : SplitState) : List String :=
  if 0 < st.curr.length then st.args ++ [st.curr] else st.args

/-- The function `splitArguments`: the loop over the runes of `input`, then the flush. -/
def splitArguments (input : String) : List String :=
  splitFinish (splitScan input)

/-- A character that, with no escape pending and the quote flags `sq` (single) and `dq`
(double), reaches the `default` case of the `switch`. -/
def isLiteral (sq dq : Bool) (r : Char) : Prop :=
  ¬ (r = '\\' ∧ sq = false) ∧ ¬ (r = '\'' ∧ dq = false) ∧ ¬ (r = '"' ∧ sq = false) ∧
    ¬ (r = ' ' ∧ sq = false ∧ dq = false)

/-- A token without space, single quote, double quote or backslash. -/
def simpleToken (t : String) : Prop :=
  ∀ r ∈ t.data, r ≠ ' ' ∧ r ≠ '\'' ∧ r ≠ '"' ∧ r ≠ '\\'

instance (t : String) : Decidable (simpleToken t) := by
  unfold simpleToken; infer_instance

/-- Balanced quotes: at the end of the line the tokenizer is inside neither kind of
quote. -/
def balancedQuotes (s : String) : Prop :=
  (splitScan s).inSingleQuotes = false ∧ (splitScan s).inDoubleQuotes = false

instance (s : String) : Decidable (balancedQuotes s) := by
  unfold balancedQuotes; infer_instance

/-- No trailing backslash: at the end of the line no escape is pending. -/
def noTrailingBackslash (s : String) : Prop :=
  (splitScan s).withEscape = false

instance (s : String) : Decidable (noTrailingBackslash s) := by
  unfold noTrailingBackslash; infer_instance

/-- The library function `strings.Join(elems, sep)`. -/
def stringsJoin : List String → String → String
  | [], _ => ""
  | [a], _ => a
  | a :: b :: rest, sep => a ++ sep ++ stringsJoin (b :: rest) sep

/-! ## Command resolver (`commandParser`, main.go 234-274) -/

/-- What `os.Stat` reports about a file, as far as the shell looks at it: `IsDir()` and
the permission bits of `Mode()`. -/
structure FileInfo where
  isDir : Bool
  mode : Nat
deriving DecidableEq, Repr

/-- The operating system as seen by the shell. `pathEnv` is `os.Getenv("PATH")`;
`stat p` is `os.Stat(p)` (`none` when it returns an error); `join` is the library
function `filepath.Join` on two elements; `userHomeDir` is `os.UserHomeDir()` (the home
directory, or the text of its error); `chdir p` tells whether `os.Chdir(p)` succeeds. -/
structure OS where
  pathEnv : String
  stat : String → Option FileInfo
  join : String → String → String
  userHomeDir : Except String String
  chdir : String → Bool

/-- The command variants: the six struct types that implement the interface `comm`. -/
inductive Comm where
  | exitComm (statusCode : Int)
  | echoComm (args : List String) (stdoutFile : String) (stderrFile : String)
  | typeComm (commName : String)
  | externalComm (path : String) (args : List String) (stdoutFile : String)
      (stderrFile : String)
  | pwdComm
  | cdComm (path : String) (args : List String)
deriving DecidableEq, Repr

/-- Result of reading an unsigned decimal number (`strconv.ParseUint`, base 10, 64 bits). -/
inductive UintResult where
  | value (n : Nat)
  | syntaxError
  | rangeError
deriving DecidableEq, Repr

/-- The digit loop of `strconv.ParseUint`: a character that is not a decimal digit is a
syntax error, a value above `2^64 - 1` is a range error, reported as soon as it is met. -/
def parseUintLoop : List Char → Nat → UintResult
  | [], n => .value n
  | c :: cs, n =>
    if '0' ≤ c ∧ c ≤ '9' then
      if n * 10 + (c.toNat - '0'.toNat) > 2 ^ 64 - 1 then .rangeError
      else parseUintLoop cs (n * 10 + (c.toNat - '0'.toNat))
    else .syntaxError

/-- The library function `strconv.Atoi` on a 64-bit platform: the returned integer and
whether the returned error is `nil`. A syntax error returns `0`; a range error returns
the nearest bound of `int64`. -/
def strconvAtoi (s : String) : Int × Bool :=
  match s.data with
  | [] => (0, false)
  | c :: cs =>
    let neg : Bool := c = '-'
    let digits := if c = '+' ∨ c = '-' then cs else c :: cs
    if digits = [] then (0, false)
    else
      match parseUintLoop digits 0 with
      | .syntaxError => (0, false)
      | .rangeError => (if neg then -(2 ^ 63) else 2 ^ 63 - 1, false)
      | .value un =>
        if neg = false ∧ un ≥ 2 ^ 63 then (2 ^ 63 - 1, false)
        else if neg = true ∧ un > 2 ^ 63 then (-(2 ^ 63), false)
        else (if neg then -(un : Int) else (un : Int), true)

/-- Pieces of `strings.Split` still to be produced: `cur` is the piece being read. -/
def stringsSplitAux : List Char → Char → List Char → List String
  | [], _, cur => [String.mk cur]
  | c :: cs, sep, cur =>
    if c = sep then String.mk cur :: stringsSplitAux cs sep []
    else stringsSplitAux cs sep (cur ++ [c])

/-- The library function `strings.Split(s, sep)` for a separator of one character: the
pieces between the separators, `[s]` when `s` holds no separator (also for `s = ""`). -/
def stringsSplit (s : String) (sep : Char) : List String :=
  stringsSplitAux s.data sep []

/-- The loop `for _, dir := range paths` of `commandParser` (main.go 267-272): the first
candidate `filepath.Join(dir, command)` for which `os.Stat` succeeds, that is not a
directory and has one of the permission bits `0111` set. -/
def searchPath (os : OS) (command : String) : List String → Option String
  | [] => none
  | dir :: rest =>
    match os.stat (os.join dir command) with
    | some fileInfo =>
      if fileInfo.isDir = false ∧ fileInfo.mode &&& 0o111 ≠ 0 then some (os.join dir command)
      else searchPath os command rest
    | none => searchPath os command rest

/-- The function `commandParser`: the command variant, or the text of the error. -/
def commandParser (os : OS) (command : String) (args : List String) : Except String Comm :=
  let (cleanArgs, stdoutFile, stderrFile) := extractRedirection args
  if command = "exit" then
    match cleanArgs with
    | [] => .ok (.exitComm 0)
    | a :: _ => .ok (.exitComm (strconvAtoi a).1)
  else if command = "echo" then
    match cleanArgs with
    | [] => .error "echo: no arguments provided"
    | _ :: _ => .ok (.echoComm cleanArgs stdoutFile stderrFile)
  else if command = "type" then
    match cleanArgs with
    | [] => .error "type: no arguments provided"
    | a :: _ => .ok (.typeComm a)
  else if command = "pwd" then
    .ok .pwdComm
  else if command = "cd" then
    let path := match args with
      | [] => ""
      | a :: _ => a
    .ok (.cdComm path cleanArgs)
  else
    match searchPath os command (stringsSplit os.pathEnv ':') with
    | some fullPath => .ok (.externalComm fullPath cleanArgs stdoutFile stderrFile)
    | none => .error (command ++ ": command not found")

/-- How a call of `run` ends: it returns (with the error, if any, and the text it wrote
to standard output), or it stops with an index-out-of-range panic. -/
inductive RunResult where
  | returned (err : Option String) (output : String)
  | indexPanic
deriving DecidableEq, Repr

/-- The method `cdComm.run` (main.go 79-93) on a variant with fields `path` and `args`. -/
def cdRun (os : OS) (path : String) (args : List String) : RunResult :=
  let target : Except String String :=
    if path = "" ∨ path = "~" then os.userHomeDir else .ok path
  match target with
  | .error err => .returned (some ("cd: unable to get home directory: " ++ err)) ""
  | .ok dir =>
    if os.chdir dir then .returned none ""
    else
      match args with
      | [] => .indexPanic
      | a :: _ => .returned none ("cd: " ++ a ++ ": No such file or directory\n")

/-- A machine whose search path is `/bin`, where every path names an executable regular
file, so in particular `/bin/echo`, `/bin/cd`, ... exist and are executable. -/
def fullOS : OS :=
  { pathEnv := "/bin"
    stat := fun _ => some { isDir := false, mode := 0o755 }
    join := fun dir name => dir ++ "/" ++ name
    userHomeDir := .ok "/root"
    chdir := fun _ => true }

/-- The test of the search loop on one candidate path (main.go 269): `os.Stat` succeeds,
the file is not a directory and one of the permission bits `0111` is set. -/
def isExecutableFile (os : OS) (fullPath : String) : Bool :=
  match os.stat fullPath with
  | some fileInfo => fileInfo.isDir = false ∧ fileInfo.mode &&& 0o111 ≠ 0
  | none => false

/-- The five names that `commandParser` tests before it reads `PATH`. -/
def builtinNames : List String := ["exit", "echo", "type", "pwd", "cd"]

/-- One path element in `filepath.Clean`: empty elements and `.` are dropped, `..`
removes the element before it (or is kept in front of a relative path, or dropped at the
root), any other element is kept. -/
def cleanStep (rooted : Bool) (stack : List String) (elem : String) : List String :=
  if elem = "" ∨ elem = "." then stack
  else if elem = ".." then
    match stack.getLast? with
    | some top => if top = ".." then stack ++ [".."] else stack.dropLast
    | none => if rooted then stack else stack ++ [".."]
  else stack ++ [elem]

/-- The library function `filepath.Clean` on Unix. -/
def filepathClean (path : String) : String :=
  if path = "" then "."
  else
    let rooted : Bool := path.data.head? = some '/'
    let body := stringsJoin ((stringsSplit path '/').foldl (cleanStep rooted) []) "/"
    if rooted then "/" ++ body else if body = "" then "." else body

/-- The library function `filepath.Join` on Unix, for two elements: empty elements are
ignored, the rest is joined by `/` and cleaned; two empty elements give `""`. -/
def filepathJoin (dir name : String) : String :=
  if dir ≠ "" then filepathClean (dir ++ "/" ++ name)
  else if name ≠ "" then filepathClean name
  else ""

/-- A machine whose `PATH` is empty, whose working directory holds an executable regular
file `myprog` (the only file there is) and where no directory can be entered; `join` is
`filepathJoin`. -/
def cwdOS : OS :=
  { pathEnv := ""
    stat := fun p => if p = "myprog" then some { isDir := false, mode := 0o755 } else none
    join := filepathJoin
    userHomeDir := .ok "/root"
    chdir := fun _ => false }

/-- A machine with `PATH=/usr/local/bin:/usr/bin:/bin` where `ls` is a directory in
`/usr/local/bin`, an executable file in `/usr/bin` and in `/bin`. -/
def pathOS : OS :=
  { pathEnv := "/usr/local/bin:/usr/bin:/bin"
    stat := fun p =>
      if p = "/usr/local/bin/ls" then some { isDir := true, mode := 0o755 }
      else if p = "/usr/bin/ls" ∨ p = "/bin/ls" then some { isDir := false, mode := 0o755 }
      else none
    join := filepathJoin
    userHomeDir := .ok "/root"
    chdir := fun _ => false }

/-- The directory that `cdComm.run` hands to `os.Chdir` (main.go 80-86): the home
directory when `path` is `""` or `~` (an error when it cannot be found), else `path`. -/
def cdTarget (os : OS) (path : String) : Except String String :=
  if path = "" ∨ path = "~" then os.userHomeDir else .ok path

/-! ## Read loop (`main`, main.go 13-42) -/

/-- The library function `unicode.IsSpace`: tab, line feed, vertical tab, form feed,
carriage return, space, U+0085, U+00A0 and the other characters with the Unicode
property White_Space. -/
def unicodeIsSpace (c : Char) : Bool :=
  (0x09 ≤ c.toNat ∧ c.toNat ≤ 0x0d) ∨ c.toNat = 0x20 ∨ c.toNat = 0x85 ∨ c.toNat = 0xa0 ∨
    c.toNat = 0x1680 ∨ (0x2000 ≤ c.toNat ∧ c.toNat ≤ 0x200a) ∨ c.toNat = 0x2028 ∨
    c.toNat = 0x2029 ∨ c.toNat = 0x202f ∨ c.toNat = 0x205f ∨ c.toNat = 0x3000

/-- The library function `strings.TrimSpace`: leading and trailing white space removed. -/
def stringsTrimSpace (s : String) : String :=
  String.mk ((s.data.dropWhile unicodeIsSpace).reverse.dropWhile unicodeIsSpace).reverse

/-- What one round of the loop of `main` does with the line it has read, up to the call
of `commandParser`: the line is skipped, or `parts[0]` is out of range, or the command
name `parts[0]` and the arguments `parts[1:]` are handed on. -/
inductive MainStep where
  | skipped
  | indexPanic
  | parsed (comm : String) (args : List String)
deriving DecidableEq, Repr

/-- Lines 21-27 of `main` on the line `input` returned by `reader.ReadString`. -/
def mainParse (input : String) : MainStep :=
  if input = "\n" then .skipped
  else
    match splitArguments (stringsTrimSpace input) with
    | [] => .indexPanic
    | comm :: args => .parsed comm args

/-- A line without single quote, double quote and backslash. -/
def plainLine (input : String) : Prop :=
  ∀ r ∈ input.data, r ≠ '\'' ∧ r ≠ '"' ∧ r ≠ '\\'

instance (input : String) : Decidable (plainLine input) := by
  unfold plainLine; infer_instance

/-- Reference tokenizer for plain lines, following the words of the specification:
split the line on the space character U+0020 and drop the empty pieces. -/
def splitOnSpaceRef (line : String) : List String :=
  ((line.data.splitOn ' ').filter (fun piece => !piece.isEmpty)).map String.mk

/-! ## Decimal numerals (the reading of the argument of `exit`) -/

/-- A decimal digit `0`..`9`. -/
def isDecimalDigit (c : Char) : Bool :=
  '0' ≤ c ∧ c ≤ '9'

/-- The number written by a list of decimal digits, most significant digit first. -/
def decimalValue (cs : List Char) : Nat :=
  cs.foldl (fun n c => n * 10 + (c.toNat - '0'.toNat)) 0

/-- The string starts with a minus sign. -/
def isNegative (s : String) : Bool :=
  s.data.head? = some '-'

/-- The string without its leading sign `+` or `-`, if it has one. -/
def unsignedPart (s : String) : List Char :=
  match s.data with
  | [] => []
  | c :: cs => if c = '+' ∨ c = '-' then cs else c :: cs

/-- A decimal numeral: an optional sign followed by one or more decimal digits. -/
def isNumeral (s : String) : Bool :=
  unsignedPart s ≠ [] ∧ (unsignedPart s).all isDecimalDigit

/-- The integer written by a decimal numeral. -/
def numeralValue (s : String) : Int :=
  if isNegative s then -(decimalValue (unsignedPart s) : Int)
  else (decimalValue (unsignedPart s) : Int)

/-! ## Theorems: redirection extractor -/

theorem getD_append_length (p l : List String) (n : Nat) :
    (p ++ l).getD (p.length + n) "" = l.getD n "" := by
  induction p with
  | nil => simp
  | cons a p ih =>
    have h : (a :: p).length + n = (p.length + n) + 1 := by simp; omega
    rw [List.cons_append, h, List.getD_cons_succ, ih]

theorem redirBody_at (p : List String) (x : String) (rest : List String) (st : RedirState) :
    redirBody (p ++ x :: rest) st p.length = redirStep x rest.head? st := by
  have hx : (p ++ x :: rest).getD p.length "" = x := by
    have h := getD_append_length p (x :: rest) 0
    simpa using h
  unfold redirBody redirStep
  rw [hx]
  cases rest with
  | nil => simp
  | cons f r =>
    have hf : (p ++ x :: f :: r).getD (p.length + 1) "" = f := by
      have h := getD_append_length p (x :: f :: r) 1
      simpa using h
    rw [hf]
    simp

theorem redirLoop_aux (l : List String) :
    ∀ (p : List String) (st : RedirState),
      (List.range' p.length l.length).foldl (redirBody (p ++ l)) st = redirScan l st := by
  induction l with
  | nil => intro p st; simp [redirScan]
  | cons x rest ih =>
    intro p st
    have hlen : (p ++ [x]).length = p.length + 1 := by simp
    have hcat : p ++ x :: rest = (p ++ [x]) ++ rest := by simp
    simp only [List.length_cons, List.range'_succ, List.foldl_cons]
    rw [redirBody_at, hcat, ← hlen, ih (p ++ [x])]
    rfl

/-- The index loop of `extractRedirection` agrees with the token-by-token scan. -/
theorem redirLoop_eq_scan (args : List String) :
    redirLoop args = redirScan args RedirState.init := by
  have h := redirLoop_aux args [] RedirState.init
  simpa [redirLoop, List.range_eq_range'] using h

theorem extractRedirection_eq_scan (args : List String) :
    extractRedirection args =
      ((redirScan args RedirState.init).cleanedArgs,
       (redirScan args RedirState.init).redirectFile,
       (redirScan args RedirState.init).stderrFile) := by
  simp [extractRedirection, redirLoop_eq_scan]

theorem redirStep_skip (x : String) (n : Option String) (c : List String) (r e : String) :
    redirStep x n ⟨c, r, e, true⟩ = ⟨c, r, e, false⟩ := by
  simp [redirStep]

theorem redirStep_plain (x : String) (n : Option String) (c : List String) (r e : String)
    (hx : isRedirOp x = false) :
    redirStep x n ⟨c, r, e, false⟩ = ⟨c ++ [x], r, e, false⟩ := by
  simp only [isRedirOp, decide_eq_false_iff_not, not_or] at hx
  simp [redirStep, hx.1, hx.2.1, hx.2.2]

theorem redirStep_out (x f : String) (c : List String) (r e : String)
    (hx : x = ">" ∨ x = "1>") :
    redirStep x (some f) ⟨c, r, e, false⟩ = ⟨c, f, e, true⟩ := by
  simp [redirStep, hx]

theorem redirStep_err (f : String) (c : List String) (r e : String) :
    redirStep "2>" (some f) ⟨c, r, e, false⟩ = ⟨c, r, f, true⟩ := by
  simp [redirStep]

theorem redirStep_last (x : String) (st : RedirState) (hs : st.skip = false)
    (hx : isRedirOp x = true) :
    redirStep x none st = st := by
  simp only [isRedirOp, decide_eq_true_eq] at hx
  unfold redirStep
  by_cases h1 : x = ">" ∨ x = "1>"
  · simp [hs, h1]
  · have h2 : x = "2>" := by tauto
    simp [hs, h1, h2]

/-- Tokens that are not operators are copied to the cleaned list, in order. -/
theorem redirScan_plain (l : List String) (hl : noRedirOp l) :
    ∀ (m c : List String) (r e : String),
      redirScan (l ++ m) ⟨c, r, e, false⟩ = redirScan m ⟨c ++ l, r, e, false⟩ := by
  induction l with
  | nil => intro m c r e; simp
  | cons x l ih =>
    intro m c r e
    have hx : isRedirOp x = false := hl x (List.mem_cons_self x l)
    have hl2 : noRedirOp l := fun t ht => hl t (List.mem_cons_of_mem x ht)
    rw [List.cons_append, redirScan, redirStep_plain x _ c r e hx, ih hl2]
    simp

/-- A stdout operator followed by a token: the token becomes the stdout target and
both are left out. -/
theorem redirScan_out (o f : String) (ho : o = ">" ∨ o = "1>") (m c : List String)
    (r e : String) :
    redirScan (o :: f :: m) ⟨c, r, e, false⟩ = redirScan m ⟨c, f, e, false⟩ := by
  rw [redirScan, List.head?_cons, redirStep_out o f c r e ho, redirScan, redirStep_skip]

/-- The operator `2>` followed by a token: the token becomes the stderr target and
both are left out. -/
theorem redirScan_err (f : String) (m c : List String) (r e : String) :
    redirScan ("2>" :: f :: m) ⟨c, r, e, false⟩ = redirScan m ⟨c, r, f, false⟩ := by
  rw [redirScan, List.head?_cons, redirStep_err, redirScan, redirStep_skip]

/-- The cleaned list never receives an operator token. -/
theorem redirScan_cleaned (l : List String) :
    ∀ st : RedirState, noRedirOp st.cleanedArgs → noRedirOp (redirScan l st).cleanedArgs := by
  induction l with
  | nil => intro st h; simpa [redirScan] using h
  | cons x l ih =>
    intro st h
    rw [redirScan]
    apply ih
    unfold redirStep
    by_cases h0 : st.skip = true
    · simpa [h0] using h
    · by_cases h1 : x = ">" ∨ x = "1>"
      · cases hh : l.head? <;> simpa [h0, h1, hh] using h
      · by_cases h2 : x = "2>"
        · cases hh : l.head? <;> simpa [h0, h1, h2, hh] using h
        · simp only [h0, h1, h2, if_false, Bool.false_eq_true]
          intro t ht
          rcases List.mem_append.mp ht with ht | ht
          · exact h t ht
          · have : t = x := by simpa using ht
            subst this
            simp only [not_or] at h1
            simp [isRedirOp, h1.1, h1.2, h2]

/-- An operator in last position that is read as an operator changes nothing. -/
theorem redirScan_snoc_op (op : String) (hop : isRedirOp op = true) :
    ∀ (n : Nat) (ts : List String), ts.length ≤ n → endsOnOperator ts = false →
      ∀ (c : List String) (r e : String),
        redirScan (ts ++ [op]) ⟨c, r, e, false⟩ = redirScan ts ⟨c, r, e, false⟩ := by
  intro n
  induction n using Nat.strong_induction_on with
  | _ n ih =>
    intro ts hlen hend c r e
    match ts, hlen, hend with
    | [], _, _ =>
      simp [redirScan, redirStep_last op ⟨c, r, e, false⟩ rfl hop]
    | [x], _, hend =>
      have hx : isRedirOp x = false := by simpa [endsOnOperator] using hend
      simp [redirScan, redirStep_plain x _ c r e hx,
        redirStep_last op ⟨c ++ [x], r, e, false⟩ rfl hop]
    | x :: y :: rest, hlen, hend =>
      have hlen2 : rest.length < n := by simp at hlen; omega
      have hlen1 : (y :: rest).length < n := by simp at hlen ⊢; omega
      by_cases hx : isRedirOp x = true
      · have hend2 : endsOnOperator rest = false := by simpa [endsOnOperator, hx] using hend
        have hx2 := hx
        simp only [isRedirOp, decide_eq_true_eq] at hx2
        by_cases h1 : x = ">" ∨ x = "1>"
        · have := ih rest.length hlen2 rest (le_refl _) hend2 c y e
          simpa [redirScan_out x y h1] using this
        · have h2 : x = "2>" := by tauto
          subst h2
          have := ih rest.length hlen2 rest (le_refl _) hend2 c r y
          simpa [redirScan_err] using this
      · have hx2 : isRedirOp x = false := by simpa using hx
        have hend2 : endsOnOperator (y :: rest) = false := by
          simpa [endsOnOperator, hx2] using hend
        have := ih (y :: rest).length hlen1 (y :: rest) (le_refl _) hend2 (c ++ [x]) r e
        have e1 := redirScan_plain [x] (by intro t ht; simp at ht; subst ht; exact hx2)
          (y :: rest ++ [op]) c r e
        have e2 := redirScan_plain [x] (by intro t ht; simp at ht; subst ht; exact hx2)
          (y :: rest) c r e
        simp only [List.singleton_append, List.cons_append, List.nil_append] at e1 e2 this ⊢
        rw [e1, e2, this]

/-- Claim C1. For every token list, the cleaned list returned by `extractRedirection`
contains none of the operator tokens `>`, `1>`, `2>`. -/
theorem extractRedirection_no_operator (ts : List String) :
    ">" ∉ (extractRedirection ts).1 ∧ "1>" ∉ (extractRedirection ts).1 ∧
      "2>" ∉ (extractRedirection ts).1 := by
  have h : noRedirOp (redirScan ts RedirState.init).cleanedArgs :=
    redirScan_cleaned ts RedirState.init (by intro t ht; simp [RedirState.init] at ht)
  rw [extractRedirection_eq_scan]
  refine ⟨fun hm => ?_, fun hm => ?_, fun hm => ?_⟩ <;>
    · have := h _ hm
      revert this
      decide

/-- Claim C2. When `pre` and `post` hold no operator token, a single `>` or `1>` followed
by a token `f` yields cleaned list `pre ++ post`, stdout target `f` and no stderr target;
a single `2>` followed by `f` yields cleaned list `pre ++ post`, no stdout target and
stderr target `f`. -/
theorem extractRedirection_single (pre post : List String) (f : String)
    (hpre : noRedirOp pre) (hpost : noRedirOp post) :
    extractRedirection (pre ++ [">", f] ++ post) = (pre ++ post, f, "") ∧
    extractRedirection (pre ++ ["1>", f] ++ post) = (pre ++ post, f, "") ∧
    extractRedirection (pre ++ ["2>", f] ++ post) = (pre ++ post, "", f) := by
  have hp := redirScan_plain post hpost [] 
  simp only [List.append_nil] at hp
  refine ⟨?_, ?_, ?_⟩
  · rw [extractRedirection_eq_scan]
    simp only [RedirState.init, List.append_assoc, List.cons_append, List.nil_append]
    rw [redirScan_plain pre hpre, redirScan_out ">" f (Or.inl rfl), hp]
    simp [redirScan]
  · rw [extractRedirection_eq_scan]
    simp only [RedirState.init, List.append_assoc, List.cons_append, List.nil_append]
    rw [redirScan_plain pre hpre, redirScan_out "1>" f (Or.inr rfl), hp]
    simp [redirScan]
  · rw [extractRedirection_eq_scan]
    simp only [RedirState.init, List.append_assoc, List.cons_append, List.nil_append]
    rw [redirScan_plain pre hpre, redirScan_err, hp]
    simp [redirScan]

/-- Witness for C2: `extract(["cat","f",">","out.txt"])`. -/
theorem extractRedirection_single_witness :
    extractRedirection ["cat", "f", ">", "out.txt"] = (["cat", "f"], "out.txt", "") :=
  (extractRedirection_single ["cat", "f"] [] "out.txt" (by decide) (by decide)).1

/-- Counterexample to C3 as stated: with `ts = [">"]` and `op = ">"` the appended
operator is taken as the file name of the operator before it and becomes the stdout
target, so the results of `extractRedirection (ts ++ [op])` and `extractRedirection ts`
differ. -/
theorem extractRedirection_trailing_op_counterexample :
    isRedirOp ">" = true ∧
    extractRedirection [">"] = ([], "", "") ∧
    extractRedirection ([">"] ++ [">"]) = ([], ">", "") ∧
    extractRedirection ([">"] ++ [">"]) ≠ extractRedirection [">"] := by
  decide

/-- Claim C3, amended. If the left-to-right reading of `ts` does not itself end on an
operator that still waits for its file name (`ts` is empty, or its last token is not an
operator, or its last token was taken as a file name), then an operator appended as the
final token is dropped and sets no target: `extractRedirection (ts ++ [op])` returns the
same cleaned list, stdout target and stderr target as `extractRedirection ts`. -/
theorem extractRedirection_trailing_op (ts : List String) (op : String)
    (hop : isRedirOp op = true) (hts : endsOnOperator ts = false) :
    extractRedirection (ts ++ [op]) = extractRedirection ts := by
  rw [extractRedirection_eq_scan, extractRedirection_eq_scan]
  have h := redirScan_snoc_op op hop ts.length ts (le_refl _) hts [] "" ""
  simp only [RedirState.init]
  rw [h]

/-- Witness for the amended C3: `["ls", ">", "2>"]` ends on a token taken as a file name. -/
theorem extractRedirection_trailing_op_witness :
    extractRedirection (["ls", ">", "2>"] ++ ["1>"]) = extractRedirection ["ls", ">", "2>"] :=
  extractRedirection_trailing_op ["ls", ">", "2>"] "1>" (by decide) (by decide)

/-- Claim C4. Last occurrence wins: with `a`, `b`, `c` free of operator tokens and two
stdout operators `o1`, `o2` (each `>` or `1>`) followed by `f` and `g`, the stdout target
is `g` and the cleaned list is `a ++ b ++ c`; with two `2>` operators the stderr target is
the file name after the later one. -/
theorem extractRedirection_last_wins (a b c : List String) (f g o1 o2 : String)
    (ha : noRedirOp a) (hb : noRedirOp b) (hc : noRedirOp c)
    (h1 : o1 = ">" ∨ o1 = "1>") (h2 : o2 = ">" ∨ o2 = "1>") :
    extractRedirection (a ++ [o1, f] ++ b ++ [o2, g] ++ c) = (a ++ b ++ c, g, "") ∧
    extractRedirection (a ++ ["2>", f] ++ b ++ ["2>", g] ++ c) = (a ++ b ++ c, "", g) := by
  have hp := redirScan_plain c hc []
  simp only [List.append_nil] at hp
  constructor
  · rw [extractRedirection_eq_scan]
    simp only [RedirState.init, List.append_assoc, List.cons_append, List.nil_append]
    rw [redirScan_plain a ha, redirScan_out o1 f h1, redirScan_plain b hb,
      redirScan_out o2 g h2, hp]
    simp [redirScan]
  · rw [extractRedirection_eq_scan]
    simp only [RedirState.init, List.append_assoc, List.cons_append, List.nil_append]
    rw [redirScan_plain a ha, redirScan_err, redirScan_plain b hb, redirScan_err, hp]
    simp [redirScan]

/-- Witness for C4: `cat x > a.txt y 1> b.txt z` and `cat x 2> a.txt y 2> b.txt z`. -/
theorem extractRedirection_last_wins_witness :
    extractRedirection (["cat", "x"] ++ [">", "a.txt"] ++ ["y"] ++ ["1>", "b.txt"] ++ ["z"])
        = (["cat", "x"] ++ ["y"] ++ ["z"], "b.txt", "") ∧
    extractRedirection (["cat", "x"] ++ ["2>", "a.txt"] ++ ["y"] ++ ["2>", "b.txt"] ++ ["z"])
        = (["cat", "x"] ++ ["y"] ++ ["z"], "", "b.txt") :=
  extractRedirection_last_wins ["cat", "x"] ["y"] ["z"] "a.txt" "b.txt" ">" "1>"
    (by decide) (by decide) (by decide) (by decide) (by decide)

/-! ## Theorems: tokenizer -/

theorem splitArguments_eq_finish (input : String) :
    splitArguments input = splitFinish (input.data.foldl splitStep SplitState.init) := rfl

theorem splitStep_literal (a : List String) (cur : String) (sq dq : Bool) (r : Char)
    (h : isLiteral sq dq r) :
    splitStep ⟨a, cur, sq, dq, false⟩ r = ⟨a, cur.push r, sq, dq, false⟩ := by
  obtain ⟨h1, h2, h3, h4⟩ := h
  simp only [splitStep, Bool.false_eq_true, if_false, h1, h2, h3, h4]

/-- A run of characters that all reach the `default` case is appended to `curr`. -/
theorem splitFold_literal (sq dq : Bool) (l : List Char) :
    ∀ (a : List String) (cur : String), (∀ r ∈ l, isLiteral sq dq r) →
      l.foldl splitStep ⟨a, cur, sq, dq, false⟩ = ⟨a, cur ++ String.mk l, sq, dq, false⟩ := by
  induction l with
  | nil =>
    intro a cur _
    have : cur ++ String.mk [] = cur := by apply String.ext; simp
    simp [this]
  | cons r l ih =>
    intro a cur h
    have hr := h r (List.mem_cons_self r l)
    have hl : ∀ x ∈ l, isLiteral sq dq x := fun x hx => h x (List.mem_cons_of_mem r hx)
    rw [List.foldl_cons, splitStep_literal a cur sq dq r hr, ih a (cur.push r) hl]
    have : cur.push r ++ String.mk l = cur ++ String.mk (r :: l) := by
      apply String.ext; simp
    rw [this]

theorem string_length_pos {s : String} (h : s ≠ "") : 0 < s.length := by
  rcases s with ⟨l⟩
  cases l with
  | nil => exact absurd rfl h
  | cons c l => simp [String.length]

theorem string_mk_data (s : String) : String.mk s.data = s := rfl

theorem empty_append (s : String) : "" ++ s = s := by
  apply String.ext; simp

/-- Claim C5. Single-quoted content is fully literal: for every non-empty `s` without a
single-quote character (spaces, double quotes and backslashes allowed) the line `'s'`
tokenizes to `[s]`; and `echo 'a b' c` tokenizes to `["echo", "a b", "c"]`. -/
theorem splitArguments_single_quoted :
    (∀ s : String, s ≠ "" → '\'' ∉ s.data → splitArguments ("'" ++ s ++ "'") = [s]) ∧
    splitArguments "echo 'a b' c" = ["echo", "a b", "c"] := by
  refine ⟨?_, by decide⟩
  intro s hne hq
  have hdata : ("'" ++ s ++ "'").data = '\'' :: (s.data ++ ['\'']) := by
    simp [String.data_append]
  have hlit : ∀ r ∈ s.data, isLiteral true false r := by
    intro r hr
    have : r ≠ '\'' := fun h => hq (h ▸ hr)
    simp [isLiteral, this]
  have h0 : splitStep SplitState.init '\'' = ⟨[], "", true, false, false⟩ := by decide
  rw [splitArguments_eq_finish, hdata, List.foldl_cons, List.foldl_append, h0,
    splitFold_literal true false s.data [] "" hlit, string_mk_data, empty_append]
  have h1 : splitStep ⟨[], s, true, false, false⟩ '\'' = ⟨[], s, false, false, false⟩ := by
    simp [splitStep]
  simp [h1, splitFinish, string_length_pos hne]

/-- Witness for C5: the quoted content holds a space, a double quote and a backslash. -/
theorem splitArguments_single_quoted_witness :
    splitArguments ("'" ++ "a \"b\\" ++ "'") = ["a \"b\\"] :=
  splitArguments_single_quoted.1 "a \"b\\" (by decide) (by decide)

/-- Claim C6. Escapes inside double quotes: with `u`, `v` free of double quotes and
backslashes, the line `"u\cv"` tokenizes to `[u ++ c ++ v]` when `c` is `$`, `"` or `\`
(backslash consumed) and to `[u ++ \ ++ c ++ v]` for every other `c` (both kept); and
`echo "a\"b"` tokenizes to `echo` and `a"b`. -/
theorem splitArguments_double_quoted_escape :
    (∀ (u v : String) (c : Char), '"' ∉ u.data → '\\' ∉ u.data → '"' ∉ v.data → '\\' ∉ v.data →
      ((c = '$' ∨ c = '"' ∨ c = '\\') →
        splitArguments ("\"" ++ u ++ "\\" ++ String.singleton c ++ v ++ "\"")
          = [u ++ String.singleton c ++ v]) ∧
      (¬ (c = '$' ∨ c = '"' ∨ c = '\\') →
        splitArguments ("\"" ++ u ++ "\\" ++ String.singleton c ++ v ++ "\"")
          = [u ++ "\\" ++ String.singleton c ++ v])) ∧
    splitArguments "echo \"a\\\"b\"" = ["echo", "a\"b"] := by
  refine ⟨?_, by decide⟩
  intro u v c hu1 hu2 hv1 hv2
  have hdata : ("\"" ++ u ++ "\\" ++ String.singleton c ++ v ++ "\"").data
      = '"' :: (u.data ++ '\\' :: c :: (v.data ++ ['"'])) := by
    simp [String.data_append]
  have hlit : ∀ w : String, '"' ∉ w.data → '\\' ∉ w.data →
      ∀ r ∈ w.data, isLiteral false true r := by
    intro w hw1 hw2 r hr
    have h1 : r ≠ '"' := fun h => hw1 (h ▸ hr)
    have h2 : r ≠ '\\' := fun h => hw2 (h ▸ hr)
    simp [isLiteral, h1, h2]
  have h0 : splitStep SplitState.init '"' = ⟨[], "", false, true, false⟩ := by decide
  have h1 : splitStep ⟨[], u, false, true, false⟩ '\\' = ⟨[], u, false, true, true⟩ := by
    simp [splitStep]
  have hend : ∀ w : String, splitStep ⟨[], w, false, true, false⟩ '"'
      = ⟨[], w, false, false, false⟩ := by
    intro w
    have e1 : ¬ ('"' = '\\') := by decide
    have e2 : ¬ ('"' = '\'') := by decide
    simp [splitStep, e1, e2]
  have hpos : ∀ w : String, 0 < (w ++ String.singleton c ++ v).length := by
    intro w; simp [String.length_append]
  rw [splitArguments_eq_finish, hdata, List.foldl_cons, List.foldl_append, h0,
    splitFold_literal false true u.data [] "" (hlit u hu1 hu2), string_mk_data, empty_append,
    List.foldl_cons, h1, List.foldl_cons]
  constructor
  · intro hc
    have h2 : splitStep ⟨[], u, false, true, true⟩ c
        = ⟨[], u.push c, false, true, false⟩ := by
      simp [splitStep, hc]
    have e : u.push c ++ v = u ++ String.singleton c ++ v := by
      apply String.ext; simp [String.data_append]
    rw [h2, List.foldl_append, splitFold_literal false true v.data [] _ (hlit v hv1 hv2),
      string_mk_data, List.foldl_cons, List.foldl_nil, hend, e]
    simp [splitFinish, hpos u]
  · intro hc
    have h2 : splitStep ⟨[], u, false, true, true⟩ c
        = ⟨[], (u.push '\\').push c, false, true, false⟩ := by
      simp [splitStep, hc]
    have e : (u.push '\\').push c ++ v = u ++ "\\" ++ String.singleton c ++ v := by
      apply String.ext; simp [String.data_append]
    rw [h2, List.foldl_append, splitFold_literal false true v.data [] _ (hlit v hv1 hv2),
      string_mk_data, List.foldl_cons, List.foldl_nil, hend, e]
    simp [splitFinish, hpos (u ++ "\\")]

/-- Witness for C6: an escaped `$` (backslash consumed) and an escaped `n` (both kept),
with a space and a single quote around them. -/
theorem splitArguments_double_quoted_escape_witness :
    splitArguments ("\"" ++ "a b" ++ "\\" ++ String.singleton '$' ++ "c'd" ++ "\"")
        = ["a b" ++ String.singleton '$' ++ "c'd"] ∧
    splitArguments ("\"" ++ "a b" ++ "\\" ++ String.singleton 'n' ++ "c'd" ++ "\"")
        = ["a b" ++ "\\" ++ String.singleton 'n' ++ "c'd"] :=
  ⟨(splitArguments_double_quoted_escape.1 "a b" "c'd" '$' (by decide) (by decide) (by decide)
      (by decide)).1 (by decide),
   (splitArguments_double_quoted_escape.1 "a b" "c'd" 'n' (by decide) (by decide) (by decide)
      (by decide)).2 (by decide)⟩

/-- Claim C7. Escapes outside quotes: with `u`, `v` free of spaces, quotes and
backslashes and any character `c` (a space, a quote, a backslash included), the line
`u\cv` tokenizes to the single token `u ++ c ++ v`; and `echo a\ b` tokenizes to
`["echo", "a b"]`. -/
theorem splitArguments_unquoted_escape :
    (∀ (u v : String) (c : Char), simpleToken u → simpleToken v →
      splitArguments (u ++ "\\" ++ String.singleton c ++ v) = [u ++ String.singleton c ++ v]) ∧
    splitArguments "echo a\\ b" = ["echo", "a b"] := by
  refine ⟨?_, by decide⟩
  intro u v c hu hv
  have hdata : (u ++ "\\" ++ String.singleton c ++ v).data = u.data ++ '\\' :: c :: v.data := by
    simp [String.data_append]
  have hlit : ∀ w : String, simpleToken w → ∀ r ∈ w.data, isLiteral false false r := by
    intro w hw r hr
    obtain ⟨h1, h2, h3, h4⟩ := hw r hr
    simp [isLiteral, h1, h2, h3, h4]
  have h1 : splitStep ⟨[], u, false, false, false⟩ '\\' = ⟨[], u, false, false, true⟩ := by
    simp [splitStep]
  have h2 : splitStep ⟨[], u, false, false, true⟩ c = ⟨[], u.push c, false, false, false⟩ := by
    simp [splitStep]
  have e : u.push c ++ v = u ++ String.singleton c ++ v := by
    apply String.ext; simp [String.data_append]
  have hpos : 0 < (u ++ String.singleton c ++ v).length := by
    simp [String.length_append]
  rw [splitArguments_eq_finish, hdata, List.foldl_append, SplitState.init,
    splitFold_literal false false u.data [] "" (hlit u hu), string_mk_data, empty_append,
    List.foldl_cons, h1, List.foldl_cons, h2,
    splitFold_literal false false v.data [] _ (hlit v hv), string_mk_data, e]
  simp [splitFinish, hpos]

/-- Witness for C7: an escaped double quote between `ab` and `cd`. -/
theorem splitArguments_unquoted_escape_witness :
    splitArguments ("ab" ++ "\\" ++ String.singleton '"' ++ "cd")
        = ["ab" ++ String.singleton '"' ++ "cd"] :=
  splitArguments_unquoted_escape.1 "ab" "cd" '"' (by decide) (by decide)

theorem splitStep_args_nonempty (st : SplitState) (r : Char) (h : "" ∉ st.args) :
    "" ∉ (splitStep st r).args := by
  unfold splitStep
  split_ifs with h1 h2 h3 h4 h5 h6 h7 h8 <;> try exact h
  intro hm
  rcases List.mem_append.mp hm with hm | hm
  · exact h hm
  · have hc : st.curr = "" := (List.mem_singleton.mp hm).symm
    rw [hc] at h8
    exact absurd h8 (by decide)

theorem splitFold_args_nonempty (l : List Char) :
    ∀ st : SplitState, "" ∉ st.args → "" ∉ (l.foldl splitStep st).args := by
  induction l with
  | nil => intro st h; exact h
  | cons r l ih => intro st h; exact ih _ (splitStep_args_nonempty st r h)

/-- The tokens of a line never include the empty string. -/
theorem splitFinish_no_empty (input : String) :
    "" ∉ splitFinish (input.data.foldl splitStep SplitState.init) := by
  have h : "" ∉ (input.data.foldl splitStep SplitState.init).args :=
    splitFold_args_nonempty input.data SplitState.init (by simp [SplitState.init])
  unfold splitFinish
  split_ifs with hpos
  · intro hm
    rcases List.mem_append.mp hm with hm | hm
    · exact h hm
    · have hc : (input.data.foldl splitStep SplitState.init).curr = "" :=
        (List.mem_singleton.mp hm).symm
      rw [hc] at hpos
      exact absurd hpos (by decide)
  · exact h

/-- Claim C8. For every input line, every token returned by `splitArguments` is a
non-empty string: the empty string is not among the tokens. -/
theorem splitArguments_no_empty_token (input : String) :
    "" ∉ splitArguments input := by
  rw [splitArguments_eq_finish]
  exact splitFinish_no_empty input

/-- Non-empty tokens without special characters, joined by single spaces, tokenize back
to themselves (after whatever tokens `a` were already emitted). -/
theorem splitFold_join (ts : List String) :
    (∀ t ∈ ts, t ≠ "" ∧ simpleToken t) → ∀ a : List String,
      splitFinish ((stringsJoin ts " ").data.foldl splitStep ⟨a, "", false, false, false⟩)
        = a ++ ts := by
  have hlit : ∀ w : String, simpleToken w → ∀ r ∈ w.data, isLiteral false false r := by
    intro w hw r hr
    obtain ⟨h1, h2, h3, h4⟩ := hw r hr
    simp [isLiteral, h1, h2, h3, h4]
  induction ts with
  | nil => intro _ a; simp [stringsJoin, splitFinish]
  | cons t rest ih =>
    intro h a
    obtain ⟨hne, hsimple⟩ := h t (List.mem_cons_self t rest)
    have hrest : ∀ x ∈ rest, x ≠ "" ∧ simpleToken x :=
      fun x hx => h x (List.mem_cons_of_mem t hx)
    cases rest with
    | nil =>
      rw [stringsJoin, splitFold_literal false false t.data a "" (hlit t hsimple),
        string_mk_data, empty_append]
      simp [splitFinish, string_length_pos hne]
    | cons b rest2 =>
      have hdata : (stringsJoin (t :: b :: rest2) " ").data
          = t.data ++ ' ' :: (stringsJoin (b :: rest2) " ").data := by
        simp [stringsJoin, String.data_append]
      have hsp : splitStep ⟨a, t, false, false, false⟩ ' ' = ⟨a ++ [t], "", false, false, false⟩ := by
        have e1 : ¬ (' ' = '\\') := by decide
        have e2 : ¬ (' ' = '\'') := by decide
        have e3 : ¬ (' ' = '"') := by decide
        simp [splitStep, e1, e2, e3, string_length_pos hne]
      rw [hdata, List.foldl_append, splitFold_literal false false t.data a "" (hlit t hsimple),
        string_mk_data, empty_append, List.foldl_cons, hsp, ih hrest (a ++ [t])]
      simp

/-- Claim C9. Round trip on simple inputs: for every line `s` with balanced quotes and no
trailing backslash whose tokens contain no space, quote or backslash, joining the tokens
with single spaces and tokenizing again gives the same tokens.  (The proof uses neither
the balance of the quotes nor the absence of a trailing backslash.) -/
theorem splitArguments_join_roundtrip (s : String) (_hbal : balancedQuotes s)
    (_hesc : noTrailingBackslash s) (hsimple : ∀ t ∈ splitArguments s, simpleToken t) :
    splitArguments (stringsJoin (splitArguments s) " ") = splitArguments s := by
  have hne : ∀ t ∈ splitArguments s, t ≠ "" ∧ simpleToken t := by
    intro t ht
    refine ⟨fun h => splitFinish_no_empty s ?_, hsimple t ht⟩
    rw [← splitArguments_eq_finish]
    exact h ▸ ht
  have h := splitFold_join (splitArguments s) hne []
  rw [splitArguments_eq_finish (stringsJoin (splitArguments s) " ")]
  simpa [SplitState.init] using h

/-- Witness for C9: a line with quotes, an escape and repeated spaces whose tokens are
simple. -/
theorem splitArguments_join_roundtrip_witness :
    splitArguments (stringsJoin (splitArguments "echo  'hello' \\a  \"b\"c ") " ")
      = splitArguments "echo  'hello' \\a  \"b\"c " :=
  splitArguments_join_roundtrip "echo  'hello' \\a  \"b\"c " (by decide) (by decide) (by decide)

/-! ## Theorems: command resolver -/

/-- Claim C10. Builtin names always win: for each of the names `exit`, `echo`, `type`,
`pwd`, `cd`, every argument list and every operating-system state (search path and file
system), `commandParser` never returns an external-command variant; it returns the
builtin variant of that name or, for `echo` and `type`, the missing-arguments error. -/
theorem commandParser_builtin_wins (os : OS) (name : String) (args : List String)
    (hname : name ∈ ["exit", "echo", "type", "pwd", "cd"]) :
    (∀ (p : String) (a : List String) (o e : String),
        commandParser os name args ≠ .ok (.externalComm p a o e)) ∧
    ((name = "exit" ∧ ∃ n, commandParser os name args = .ok (.exitComm n)) ∨
     (name = "echo" ∧ ∃ a o e, commandParser os name args = .ok (.echoComm a o e)) ∨
     (name = "type" ∧ ∃ t, commandParser os name args = .ok (.typeComm t)) ∨
     (name = "pwd" ∧ commandParser os name args = .ok .pwdComm) ∨
     (name = "cd" ∧ ∃ p a, commandParser os name args = .ok (.cdComm p a)) ∨
     ((name = "echo" ∨ name = "type") ∧
        commandParser os name args = .error (name ++ ": no arguments provided"))) := by
  rcases h : extractRedirection args with ⟨c, o, e⟩
  simp only [List.mem_cons, List.mem_singleton, List.not_mem_nil, or_false] at hname
  rcases hname with rfl | rfl | rfl | rfl | rfl
  · cases c with
    | nil =>
      have hc : commandParser os "exit" args = .ok (.exitComm 0) := by
        simp [commandParser, h]
      rw [hc]
      exact ⟨(by intro p a o e hh; cases hh), Or.inl ⟨rfl, 0, rfl⟩⟩
    | cons x xs =>
      have hc : commandParser os "exit" args = .ok (.exitComm (strconvAtoi x).1) := by
        simp [commandParser, h]
      rw [hc]
      exact ⟨(by intro p a o e hh; cases hh), Or.inl ⟨rfl, _, rfl⟩⟩
  · cases c with
    | nil =>
      have hc : commandParser os "echo" args = .error "echo: no arguments provided" := by
        simp [commandParser, h]
      rw [hc]
      refine ⟨(by intro p a o e hh; cases hh), ?_⟩
      right; right; right; right; right
      exact ⟨Or.inl rfl, rfl⟩
    | cons x xs =>
      have hc : commandParser os "echo" args = .ok (.echoComm (x :: xs) o e) := by
        simp [commandParser, h]
      rw [hc]
      exact ⟨(by intro p a o e hh; cases hh), Or.inr (Or.inl ⟨rfl, _, _, _, rfl⟩)⟩
  · cases c with
    | nil =>
      have hc : commandParser os "type" args = .error "type: no arguments provided" := by
        simp [commandParser, h]
      rw [hc]
      refine ⟨(by intro p a o e hh; cases hh), ?_⟩
      right; right; right; right; right
      exact ⟨Or.inr rfl, rfl⟩
    | cons x xs =>
      have hc : commandParser os "type" args = .ok (.typeComm x) := by
        simp [commandParser, h]
      rw [hc]
      exact ⟨(by intro p a o e hh; cases hh), Or.inr (Or.inr (Or.inl ⟨rfl, _, rfl⟩))⟩
  · have hc : commandParser os "pwd" args = .ok .pwdComm := by
      simp [commandParser, h]
    rw [hc]
    exact ⟨(by intro p a o e hh; cases hh), Or.inr (Or.inr (Or.inr (Or.inl ⟨rfl, rfl⟩)))⟩
  · have hc : ∃ p, commandParser os "cd" args = .ok (.cdComm p c) := by
      cases args <;> simp [commandParser, h]
    obtain ⟨p, hc⟩ := hc
    rw [hc]
    exact ⟨(by intro p a o e hh; cases hh),
      Or.inr (Or.inr (Or.inr (Or.inr (Or.inl ⟨rfl, _, _, rfl⟩))))⟩

/-- Witness for C10: on a machine where `/bin/echo` exists and is executable (and where
the unknown name `ls` does resolve to the external `/bin/ls`), `echo hi` is still the
builtin. -/
theorem commandParser_builtin_wins_witness :
    (commandParser fullOS "ls" ["hi"] = .ok (.externalComm "/bin/ls" ["hi"] "" "") ∧
      fullOS.stat (fullOS.join "/bin" "echo") = some { isDir := false, mode := 0o755 }) ∧
    (∀ (p : String) (a : List String) (o e : String),
        commandParser fullOS "echo" ["hi"] ≠ .ok (.externalComm p a o e)) :=
  ⟨⟨rfl, rfl⟩, (commandParser_builtin_wins fullOS "echo" ["hi"] (by decide)).1⟩

theorem searchPath_cons (os : OS) (command dir : String) (rest : List String) :
    searchPath os command (dir :: rest) =
      if isExecutableFile os (os.join dir command) then some (os.join dir command)
      else searchPath os command rest := by
  unfold isExecutableFile
  rw [searchPath]
  cases os.stat (os.join dir command) with
  | none => simp
  | some fi => by_cases h : fi.isDir = false ∧ fi.mode &&& 0o111 ≠ 0 <;> simp [h]

/-- The search stops at the first directory whose candidate passes the test. -/
theorem searchPath_first (os : OS) (command : String) (pre : List String) :
    ∀ (d : String) (post : List String),
      (∀ x ∈ pre, isExecutableFile os (os.join x command) = false) →
      isExecutableFile os (os.join d command) = true →
      searchPath os command (pre ++ d :: post) = some (os.join d command) := by
  induction pre with
  | nil => intro d post _ hd; simp [searchPath_cons, hd]
  | cons x pre ih =>
    intro d post hpre hd
    have hx := hpre x (List.mem_cons_self x pre)
    have hrest : ∀ y ∈ pre, isExecutableFile os (os.join y command) = false :=
      fun y hy => hpre y (List.mem_cons_of_mem x hy)
    rw [List.cons_append, searchPath_cons, hx, ih d post hrest hd]
    simp

/-- The search fails when no candidate passes the test. -/
theorem searchPath_none (os : OS) (command : String) (ds : List String) :
    (∀ x ∈ ds, isExecutableFile os (os.join x command) = false) →
      searchPath os command ds = none := by
  induction ds with
  | nil => intro _; rfl
  | cons x ds ih =>
    intro h
    rw [searchPath_cons, h x (List.mem_cons_self x ds),
      ih (fun y hy => h y (List.mem_cons_of_mem x hy))]
    simp

/-- For a name that is not a builtin, `commandParser` is the search over `PATH`. -/
theorem commandParser_external (os : OS) (name : String) (args : List String)
    (hname : name ∉ builtinNames) :
    commandParser os name args =
      match searchPath os name (stringsSplit os.pathEnv ':') with
      | some fullPath => .ok (.externalComm fullPath (extractRedirection args).1
          (extractRedirection args).2.1 (extractRedirection args).2.2)
      | none => .error (name ++ ": command not found") := by
  simp only [builtinNames, List.mem_cons, List.mem_singleton, List.not_mem_nil, or_false,
    not_or] at hname
  obtain ⟨h1, h2, h3, h4, h5⟩ := hname
  rcases h : extractRedirection args with ⟨c, o, e⟩
  simp [commandParser, h, h1, h2, h3, h4, h5]

theorem stringsSplitAux_append (sep : Char) (l : List Char) (hl : sep ∉ l) :
    ∀ (rest cur : List Char),
      stringsSplitAux (l ++ rest) sep cur = stringsSplitAux rest sep (cur ++ l) := by
  induction l with
  | nil => intro rest cur; simp
  | cons c l ih =>
    intro rest cur
    have hc : c ≠ sep := fun h => hl (h ▸ List.mem_cons_self c l)
    have hl2 : sep ∉ l := fun h => hl (List.mem_cons_of_mem c h)
    rw [List.cons_append, stringsSplitAux, if_neg hc, ih hl2]
    simp

/-- Splitting the `:`-join of colon-free directories gives the directories back. -/
theorem stringsSplit_join (ds : List String) (hds : ds ≠ [])
    (hcolon : ∀ d ∈ ds, ':' ∉ d.data) :
    stringsSplit (stringsJoin ds ":") ':' = ds := by
  induction ds with
  | nil => exact absurd rfl hds
  | cons d rest ih =>
    have hd := hcolon d (List.mem_cons_self d rest)
    cases rest with
    | nil =>
      have h := stringsSplitAux_append ':' d.data hd [] []
      simp only [List.append_nil, List.nil_append] at h
      simp [stringsJoin, stringsSplit, h, stringsSplitAux]
    | cons b rest2 =>
      have ih2 := ih (by simp) (fun x hx => hcolon x (List.mem_cons_of_mem d hx))
      have hdata : (stringsJoin (d :: b :: rest2) ":").data
          = d.data ++ ':' :: (stringsJoin (b :: rest2) ":").data := by
        simp [stringsJoin, String.data_append]
      unfold stringsSplit at ih2 ⊢
      rw [hdata, stringsSplitAux_append ':' d.data hd, stringsSplitAux, if_pos rfl, ih2]
      simp

/-- Counterexample to C11 as stated: with an empty `PATH` the loop still runs once, for
the directory `""` (`strings.Split("", ":")` is `[""]`), and probes
`filepath.Join("", "myprog")`, which is `myprog` in the working directory; when that file
exists and is executable the unknown name `myprog` resolves to an external command. -/
theorem commandParser_empty_path_counterexample :
    cwdOS.pathEnv = "" ∧ "myprog" ∉ builtinNames ∧
    stringsSplit cwdOS.pathEnv ':' = [""] ∧ cwdOS.join "" "myprog" = "myprog" ∧
    commandParser cwdOS "myprog" [] = .ok (.externalComm "myprog" [] "" "") ∧
    commandParser cwdOS "myprog" [] ≠ .error ("myprog" ++ ": command not found") := by
  refine ⟨rfl, by decide, by decide, by decide, rfl, ?_⟩
  intro h
  have h2 : commandParser cwdOS "myprog" [] = .ok (.externalComm "myprog" [] "" "") := rfl
  rw [h2] at h
  cases h

/-- Claim C11, amended. For a name that is not a builtin and an empty search path,
`commandParser` probes exactly one candidate, `filepath.Join("", name)`: when that
candidate does not exist, is a directory or has no executable bit, it fails with
`<name>: command not found`; otherwise it returns the external variant with that path,
the cleaned arguments and both redirection targets. -/
theorem commandParser_empty_path (os : OS) (name : String) (args : List String)
    (hname : name ∉ builtinNames) (hpath : os.pathEnv = "") :
    (isExecutableFile os (os.join "" name) = false →
      commandParser os name args = .error (name ++ ": command not found")) ∧
    (isExecutableFile os (os.join "" name) = true →
      commandParser os name args = .ok (.externalComm (os.join "" name)
        (extractRedirection args).1 (extractRedirection args).2.1
        (extractRedirection args).2.2)) := by
  have hsplit : stringsSplit os.pathEnv ':' = [""] := by rw [hpath]; decide
  rw [commandParser_external os name args hname, hsplit, searchPath_cons]
  constructor
  · intro h
    simp [h, searchPath]
  · intro h
    simp [h]

/-- Witness for the amended C11: with an empty `PATH` and no file `ls` in the working
directory, `ls -l` is not found. -/
theorem commandParser_empty_path_witness :
    commandParser cwdOS "ls" ["-l"] = .error ("ls" ++ ": command not found") :=
  (commandParser_empty_path cwdOS "ls" ["-l"] (by decide) rfl).1 (by decide)

/-- Claim C12. First match wins: for a name that is not a builtin and a search path
`d1:...:dn`, `commandParser` returns the external variant whose path is the join of the
first `di` whose candidate exists, is not a directory and has an executable bit, with
the cleaned arguments and both redirection targets of `extractRedirection args`; when no
`di` qualifies it fails with `<name>: command not found`. -/
theorem commandParser_first_match (os : OS) (name : String) (args ds : List String)
    (hname : name ∉ builtinNames) (hds : ds ≠ []) (hcolon : ∀ d ∈ ds, ':' ∉ d.data)
    (hpath : os.pathEnv = stringsJoin ds ":") :
    (∀ (pre : List String) (d : String) (post : List String), ds = pre ++ d :: post →
      (∀ x ∈ pre, isExecutableFile os (os.join x name) = false) →
      isExecutableFile os (os.join d name) = true →
      commandParser os name args = .ok (.externalComm (os.join d name)
        (extractRedirection args).1 (extractRedirection args).2.1
        (extractRedirection args).2.2)) ∧
    ((∀ d ∈ ds, isExecutableFile os (os.join d name) = false) →
      commandParser os name args = .error (name ++ ": command not found")) := by
  have hsplit : stringsSplit os.pathEnv ':' = ds := by
    rw [hpath]; exact stringsSplit_join ds hds hcolon
  rw [commandParser_external os name args hname, hsplit]
  constructor
  · intro pre d post hsplit2 hpre hd
    rw [hsplit2, searchPath_first os name pre d post hpre hd]
  · intro hnone
    rw [searchPath_none os name ds hnone]

/-- Witness for C12: with `PATH=/usr/local/bin:/usr/bin:/bin`, where `/usr/local/bin/ls`
is a directory and both `/usr/bin/ls` and `/bin/ls` are executable files, `ls` resolves
to `/usr/bin/ls`. -/
theorem commandParser_first_match_witness :
    commandParser pathOS "ls" ["-l", ">", "out"] =
      .ok (.externalComm (pathOS.join "/usr/bin" "ls")
        (extractRedirection ["-l", ">", "out"]).1 (extractRedirection ["-l", ">", "out"]).2.1
        (extractRedirection ["-l", ">", "out"]).2.2) :=
  (commandParser_first_match pathOS "ls" ["-l", ">", "out"] ["/usr/local/bin", "/usr/bin", "/bin"]
    (by decide) (by decide) (by decide) rfl).1 ["/usr/local/bin"] "/usr/bin" ["/bin"] rfl
    (by decide) (by decide)

theorem decimalFold_le (cs : List Char) :
    ∀ n : Nat, n ≤ cs.foldl (fun n c => n * 10 + (c.toNat - '0'.toNat)) n := by
  induction cs with
  | nil => intro n; exact le_refl n
  | cons c cs ih =>
    intro n
    have h := ih (n * 10 + (c.toNat - '0'.toNat))
    simp only [List.foldl_cons]
    omega

/-- On digits only, the loop of `ParseUint` returns the value, or a range error when
the value exceeds `2^64 - 1`. -/
theorem parseUintLoop_digits (cs : List Char) :
    ∀ n : Nat, n ≤ 2 ^ 64 - 1 → (∀ c ∈ cs, isDecimalDigit c = true) →
      parseUintLoop cs n =
        if cs.foldl (fun n c => n * 10 + (c.toNat - '0'.toNat)) n ≤ 2 ^ 64 - 1
        then .value (cs.foldl (fun n c => n * 10 + (c.toNat - '0'.toNat)) n)
        else .rangeError := by
  induction cs with
  | nil =>
    intro n hn _
    rw [parseUintLoop, List.foldl_nil, if_pos hn]
  | cons c cs ih =>
    intro n hn hcs
    have hc : '0' ≤ c ∧ c ≤ '9' := by
      have := hcs c (List.mem_cons_self c cs)
      simpa [isDecimalDigit] using this
    have hrest : ∀ x ∈ cs, isDecimalDigit x = true :=
      fun x hx => hcs x (List.mem_cons_of_mem c hx)
    rw [parseUintLoop, if_pos hc]
    by_cases hov : n * 10 + (c.toNat - '0'.toNat) > 2 ^ 64 - 1
    · have hle := decimalFold_le cs (n * 10 + (c.toNat - '0'.toNat))
      have hbig : ¬ (List.foldl (fun n c => n * 10 + (c.toNat - '0'.toNat)) n (c :: cs)
          ≤ 2 ^ 64 - 1) := by
        simp only [List.foldl_cons]; omega
      rw [if_pos hov, if_neg hbig]
    · rw [if_neg hov, ih _ (by omega) hrest]
      simp only [List.foldl_cons]

/-- A character that is not a digit, after digits only: a syntax error, unless the
digits before it already exceed `2^64 - 1`. -/
theorem parseUintLoop_invalid (p : List Char) (c : Char) (rest : List Char)
    (hc : isDecimalDigit c = false) :
    ∀ n : Nat, n ≤ 2 ^ 64 - 1 → (∀ x ∈ p, isDecimalDigit x = true) →
      parseUintLoop (p ++ c :: rest) n =
        if p.foldl (fun n c => n * 10 + (c.toNat - '0'.toNat)) n ≤ 2 ^ 64 - 1
        then .syntaxError else .rangeError := by
  induction p with
  | nil =>
    intro n hn _
    have hc2 : ¬ ('0' ≤ c ∧ c ≤ '9') := by simpa [isDecimalDigit] using hc
    simp only [List.nil_append, List.foldl_nil, if_pos hn]
    rw [parseUintLoop, if_neg hc2]
  | cons x p ih =>
    intro n hn hp
    have hx : '0' ≤ x ∧ x ≤ '9' := by
      have := hp x (List.mem_cons_self x p)
      simpa [isDecimalDigit] using this
    have hrest : ∀ y ∈ p, isDecimalDigit y = true :=
      fun y hy => hp y (List.mem_cons_of_mem x hy)
    rw [List.cons_append, parseUintLoop, if_pos hx]
    by_cases hov : n * 10 + (x.toNat - '0'.toNat) > 2 ^ 64 - 1
    · have hle := decimalFold_le p (n * 10 + (x.toNat - '0'.toNat))
      have hbig : ¬ (List.foldl (fun n c => n * 10 + (c.toNat - '0'.toNat)) n (x :: p)
          ≤ 2 ^ 64 - 1) := by
        simp only [List.foldl_cons]; omega
      rw [if_pos hov, if_neg hbig]
    · rw [if_neg hov, ih _ (by omega) hrest]
      simp only [List.foldl_cons]

/-- The result of `strconv.Atoi` in terms of the sign and the unsigned part. -/
theorem strconvAtoi_eq (s : String) :
    strconvAtoi s =
      if unsignedPart s = [] then (0, false)
      else
        match parseUintLoop (unsignedPart s) 0 with
        | .syntaxError => (0, false)
        | .rangeError => (if isNegative s then -(2 ^ 63) else 2 ^ 63 - 1, false)
        | .value un =>
          if isNegative s = false ∧ un ≥ 2 ^ 63 then (2 ^ 63 - 1, false)
          else if isNegative s = true ∧ un > 2 ^ 63 then (-(2 ^ 63), false)
          else (if isNegative s then -(un : Int) else (un : Int), true) := by
  unfold strconvAtoi unsignedPart isNegative
  cases h : s.data with
  | nil => simp
  | cons c cs => simp

/-- On a decimal numeral `strconv.Atoi` returns the value, cut to the range of `int64`. -/
theorem strconvAtoi_numeral (s : String) (h : isNumeral s = true) :
    (strconvAtoi s).1 =
      if numeralValue s > 2 ^ 63 - 1 then 2 ^ 63 - 1
      else if numeralValue s < -(2 ^ 63) then -(2 ^ 63)
      else numeralValue s := by
  simp only [isNumeral, decide_eq_true_eq, List.all_eq_true] at h
  obtain ⟨hne, hall⟩ := h
  have hloop := parseUintLoop_digits (unsignedPart s) 0 (by norm_num) hall
  rw [strconvAtoi_eq, if_neg hne, hloop]
  unfold numeralValue decimalValue
  generalize List.foldl (fun n c => n * 10 + (c.toNat - '0'.toNat)) 0 (unsignedPart s) = v
  cases isNegative s
  · by_cases hv : v ≤ 2 ^ 64 - 1
    · simp only [if_pos hv, Bool.false_eq_true, if_false, true_and, false_and]
      split_ifs <;> first | rfl | omega
    · simp only [if_neg hv, Bool.false_eq_true, if_false]
      split_ifs <;> first | rfl | omega
  · by_cases hv : v ≤ 2 ^ 64 - 1
    · simp only [if_pos hv, if_true, true_and, Bool.true_eq_false, false_and, if_false]
      split_ifs <;> first | rfl | omega
    · simp only [if_neg hv, if_true]
      split_ifs <;> first | rfl | omega

theorem exists_first_invalid (l : List Char) (h : l.all isDecimalDigit = false) :
    ∃ (c : Char) (rest : List Char),
      l = l.takeWhile isDecimalDigit ++ c :: rest ∧ isDecimalDigit c = false := by
  induction l with
  | nil => simp at h
  | cons x l ih =>
    by_cases hx : isDecimalDigit x = true
    · have hl : l.all isDecimalDigit = false := by
        simpa [List.all_cons, hx] using h
      obtain ⟨c, rest, hdec, hc⟩ := ih hl
      refine ⟨c, rest, ?_, hc⟩
      rw [List.takeWhile_cons, if_pos hx, List.cons_append, ← hdec]
    · have hx2 : isDecimalDigit x = false := by simpa using hx
      refine ⟨x, l, ?_, hx2⟩
      rw [List.takeWhile_cons, if_neg hx, List.nil_append]

/-- On a string that is not a decimal numeral `strconv.Atoi` returns `0`, provided the
digits before the first invalid character do not exceed `2^64 - 1`. -/
theorem strconvAtoi_invalid (s : String) (h : isNumeral s = false)
    (hp : decimalValue ((unsignedPart s).takeWhile isDecimalDigit) ≤ 2 ^ 64 - 1) :
    (strconvAtoi s).1 = 0 := by
  rw [strconvAtoi_eq]
  by_cases hne : unsignedPart s = []
  · rw [if_pos hne]
  · rw [if_neg hne]
    have hall : (unsignedPart s).all isDecimalDigit = false := by
      cases hh : (unsignedPart s).all isDecimalDigit with
      | false => rfl
      | true => simp [isNumeral, hne, hh] at h
    obtain ⟨c, rest, hdec, hc⟩ := exists_first_invalid (unsignedPart s) hall
    have hpre : ∀ x ∈ (unsignedPart s).takeWhile isDecimalDigit, isDecimalDigit x = true :=
      fun x hx => (List.mem_takeWhile_imp hx)
    have hloop := parseUintLoop_invalid _ c rest hc 0 (by norm_num) hpre
    rw [← hdec] at hloop
    unfold decimalValue at hp
    rw [hloop, if_pos hp]

theorem commandParser_exit_eq (os : OS) (args : List String) :
    commandParser os "exit" args =
      match (extractRedirection args).1 with
      | [] => .ok (.exitComm 0)
      | a :: _ => .ok (.exitComm (strconvAtoi a).1) := by
  rcases h : extractRedirection args with ⟨c, o, e⟩
  simp [commandParser, h]

/-- Counterexample to C13 as stated: `exit 99999999999999999999`. The argument is a
decimal numeral but does not fit `int64`; `strconv.Atoi` returns `2^63 - 1` with a range
error, the error is discarded, and the status is `9223372036854775807`: neither `0` nor
the integer value of the argument. -/
theorem commandParser_exit_counterexample :
    isNumeral "99999999999999999999" = true ∧
    numeralValue "99999999999999999999" = 99999999999999999999 ∧
    commandParser fullOS "exit" ["99999999999999999999"]
      = .ok (.exitComm 9223372036854775807) ∧
    (9223372036854775807 : Int) ≠ 0 ∧
    (9223372036854775807 : Int) ≠ 99999999999999999999 := by
  refine ⟨by decide, by decide, rfl, by decide, by decide⟩

/-- Claim C13, amended. `commandParser "exit" args` always returns an exit variant, never
an error. The status is `0` when the cleaned list is empty. When the first cleaned
argument is a decimal numeral (optional sign, then digits) the status is its value if
that lies between `-2^63` and `2^63 - 1`, and the nearer of these two bounds otherwise.
When it is not a decimal numeral the status is `0`, provided the digits before its first
invalid character do not exceed `2^64 - 1`. -/
theorem commandParser_exit_status (os : OS) (args : List String) :
    (∃ n, commandParser os "exit" args = .ok (.exitComm n)) ∧
    ((extractRedirection args).1 = [] → commandParser os "exit" args = .ok (.exitComm 0)) ∧
    (∀ (a : String) (rest : List String), (extractRedirection args).1 = a :: rest →
      (isNumeral a = true → -(2 ^ 63) ≤ numeralValue a → numeralValue a ≤ 2 ^ 63 - 1 →
        commandParser os "exit" args = .ok (.exitComm (numeralValue a))) ∧
      (isNumeral a = true → 2 ^ 63 - 1 < numeralValue a →
        commandParser os "exit" args = .ok (.exitComm (2 ^ 63 - 1))) ∧
      (isNumeral a = true → numeralValue a < -(2 ^ 63) →
        commandParser os "exit" args = .ok (.exitComm (-(2 ^ 63)))) ∧
      (isNumeral a = false →
        decimalValue ((unsignedPart a).takeWhile isDecimalDigit) ≤ 2 ^ 64 - 1 →
        commandParser os "exit" args = .ok (.exitComm 0))) := by
  rw [commandParser_exit_eq]
  refine ⟨?_, ?_, ?_⟩
  · cases (extractRedirection args).1 with
    | nil => exact ⟨0, rfl⟩
    | cons a rest => exact ⟨_, rfl⟩
  · intro h
    rw [h]
  · intro a rest h
    rw [h]
    refine ⟨?_, ?_, ?_, ?_⟩
    · intro hn hlo hhi
      have hv := strconvAtoi_numeral a hn
      rw [if_neg (by omega), if_neg (by omega)] at hv
      simp only [hv]
    · intro hn hhi
      have hv := strconvAtoi_numeral a hn
      rw [if_pos (by omega)] at hv
      simp only [hv]
    · intro hn hlo
      have hv := strconvAtoi_numeral a hn
      rw [if_neg (by omega), if_pos hlo] at hv
      simp only [hv]
    · intro hn hp
      simp only [strconvAtoi_invalid a hn hp]

/-- Witness for the amended C13: `exit -12 > x` has status `-12`, `exit abc` status `0`. -/
theorem commandParser_exit_status_witness :
    commandParser fullOS "exit" ["-12", ">", "x"] = .ok (.exitComm (numeralValue "-12")) ∧
    commandParser fullOS "exit" ["abc"] = .ok (.exitComm 0) :=
  ⟨((commandParser_exit_status fullOS ["-12", ">", "x"]).2.2 "-12" [] (by decide)).1
      (by decide) (by decide) (by decide),
   ((commandParser_exit_status fullOS ["abc"]).2.2 "abc" [] (by decide)).2.2.2
      (by decide) (by decide)⟩

theorem commandParser_echo_eq (os : OS) (args : List String) :
    commandParser os "echo" args =
      match (extractRedirection args).1 with
      | [] => .error "echo: no arguments provided"
      | _ :: _ => .ok (.echoComm (extractRedirection args).1 (extractRedirection args).2.1
          (extractRedirection args).2.2) := by
  rcases h : extractRedirection args with ⟨c, o, e⟩
  cases c <;> simp [commandParser, h]

/-- Claim C14. `commandParser "echo" args` fails with the missing-arguments error exactly
when the cleaned list of `extractRedirection args` is empty (so for the redirection-only
arguments `> out.txt`); otherwise it returns the echo variant holding the cleaned
arguments, the stdout target and the stderr target of `extractRedirection args`. -/
theorem commandParser_echo (os : OS) (args : List String) :
    (commandParser os "echo" args = .error "echo: no arguments provided" ↔
      (extractRedirection args).1 = []) ∧
    ((extractRedirection args).1 ≠ [] →
      commandParser os "echo" args = .ok (.echoComm (extractRedirection args).1
        (extractRedirection args).2.1 (extractRedirection args).2.2)) ∧
    commandParser os "echo" [">", "out.txt"] = .error "echo: no arguments provided" := by
  refine ⟨?_, ?_, rfl⟩
  · rw [commandParser_echo_eq]
    cases h : (extractRedirection args).1 with
    | nil => simp
    | cons x xs =>
      constructor
      · intro hh; cases hh
      · intro hh; cases hh
  · intro hne
    rw [commandParser_echo_eq]
    cases h : (extractRedirection args).1 with
    | nil => exact absurd h hne
    | cons x xs => rfl

/-- Witness for C14: `echo hi > out.txt 2> err.txt`. -/
theorem commandParser_echo_witness :
    commandParser fullOS "echo" ["hi", ">", "out.txt", "2>", "err.txt"] =
      .ok (.echoComm (extractRedirection ["hi", ">", "out.txt", "2>", "err.txt"]).1
        (extractRedirection ["hi", ">", "out.txt", "2>", "err.txt"]).2.1
        (extractRedirection ["hi", ">", "out.txt", "2>", "err.txt"]).2.2) :=
  (commandParser_echo fullOS ["hi", ">", "out.txt", "2>", "err.txt"]).2.1 (by decide)

theorem commandParser_cd_eq (os : OS) (args : List String) :
    commandParser os "cd" args = .ok (.cdComm (args.headD "") (extractRedirection args).1) := by
  rcases h : extractRedirection args with ⟨c, o, e⟩
  cases args <;> simp [commandParser, h]

theorem cdRun_eq (os : OS) (path : String) (args : List String) :
    cdRun os path args =
      match cdTarget os path with
      | .error err => .returned (some ("cd: unable to get home directory: " ++ err)) ""
      | .ok dir =>
        if os.chdir dir then .returned none ""
        else
          match args with
          | [] => .indexPanic
          | a :: _ => .returned none ("cd: " ++ a ++ ": No such file or directory\n") := rfl

/-- The scan only ever appends to the cleaned list. -/
theorem redirScan_prefix (l : List String) :
    ∀ st : RedirState, ∃ extra, (redirScan l st).cleanedArgs = st.cleanedArgs ++ extra := by
  induction l with
  | nil => intro st; exact ⟨[], by simp [redirScan]⟩
  | cons x l ih =>
    intro st
    rw [redirScan]
    obtain ⟨extra, he⟩ := ih (redirStep x l.head? st)
    have hstep : ∃ e2, (redirStep x l.head? st).cleanedArgs = st.cleanedArgs ++ e2 := by
      unfold redirStep
      by_cases h0 : st.skip = true
      · exact ⟨[], by simp [h0]⟩
      · by_cases h1 : x = ">" ∨ x = "1>"
        · cases hh : l.head? <;> exact ⟨[], by simp [h0, h1]⟩
        · by_cases h2 : x = "2>"
          · cases hh : l.head? <;> exact ⟨[], by simp [h0, h1, h2]⟩
          · exact ⟨[x], by simp [h0, h1, h2]⟩
    obtain ⟨e2, he2⟩ := hstep
    exact ⟨e2 ++ extra, by rw [he, he2, List.append_assoc]⟩

/-- A first argument that is not an operator is also the first cleaned argument. -/
theorem extractRedirection_head (a : String) (rest : List String) (ha : isRedirOp a = false) :
    ∃ extra, (extractRedirection (a :: rest)).1 = a :: extra := by
  rw [extractRedirection_eq_scan]
  have h1 := redirScan_plain [a] (by intro t ht; simp at ht; subst ht; exact ha) rest [] "" ""
  simp only [List.singleton_append, List.nil_append] at h1
  obtain ⟨extra, he⟩ := redirScan_prefix rest ⟨[a], "", "", false⟩
  refine ⟨extra, ?_⟩
  simp only [RedirState.init]
  rw [h1, he]
  rfl

/-- Counterexample to C15 as stated: `cd > out dir` where no directory `>` exists. The
target path is the raw first argument `>`, the stored list is the cleaned `["dir"]`, and
the diagnostic names `dir`, not the raw first argument `>`. -/
theorem cdRun_diagnostic_counterexample :
    commandParser cwdOS "cd" [">", "out", "dir"] = .ok (.cdComm ">" ["dir"]) ∧
    cdTarget cwdOS ">" = .ok ">" ∧ cwdOS.chdir ">" = false ∧
    cdRun cwdOS ">" ["dir"] = .returned none "cd: dir: No such file or directory\n" ∧
    cdRun cwdOS ">" ["dir"] ≠ .returned none ("cd: " ++ ">" ++ ": No such file or directory\n") := by
  refine ⟨rfl, rfl, rfl, by decide, by decide⟩

/-- Claim C15, amended. For every raw argument list whose cleaned list is non-empty, when
the `cd` variant returned by `commandParser "cd" args` is run and the change of
directory fails, `run` returns no error and prints `cd: X: No such file or directory`
where `X` is the first cleaned argument; `X` is the raw first argument `args[0]`, the
string stored as target path, whenever `args[0]` is not a redirection operator. -/
theorem cdRun_failure_diagnostic (os : OS) (args : List String) (c : String)
    (cs : List String) (dir : String)
    (hclean : (extractRedirection args).1 = c :: cs)
    (hdir : cdTarget os (args.headD "") = .ok dir)
    (hfail : os.chdir dir = false) :
    commandParser os "cd" args = .ok (.cdComm (args.headD "") (c :: cs)) ∧
    cdRun os (args.headD "") (c :: cs)
      = .returned none ("cd: " ++ c ++ ": No such file or directory\n") ∧
    (∀ (a : String) (rest : List String), args = a :: rest → isRedirOp a = false →
      c = a ∧ args.headD "" = a) := by
  refine ⟨?_, ?_, ?_⟩
  · rw [commandParser_cd_eq, hclean]
  · rw [cdRun_eq, hdir]
    simp [hfail]
  · intro a rest hargs ha
    subst hargs
    obtain ⟨extra, he⟩ := extractRedirection_head a rest ha
    rw [he] at hclean
    exact ⟨(List.cons.inj hclean).1.symm, rfl⟩

/-- Witness for the amended C15: `cd /nonexistent` on a machine where no directory can be
entered. -/
theorem cdRun_failure_diagnostic_witness :
    commandParser cwdOS "cd" ["/nonexistent"] = .ok (.cdComm "/nonexistent" ["/nonexistent"]) ∧
    cdRun cwdOS "/nonexistent" ["/nonexistent"]
      = .returned none ("cd: " ++ "/nonexistent" ++ ": No such file or directory\n") :=
  ⟨(cdRun_failure_diagnostic cwdOS ["/nonexistent"] "/nonexistent" [] "/nonexistent"
      (by decide) rfl rfl).1,
   (cdRun_failure_diagnostic cwdOS ["/nonexistent"] "/nonexistent" [] "/nonexistent"
      (by decide) rfl rfl).2.1⟩

/-- Claim C20 fails on the code: for `cd > out` (no directory `>` exists) the stored
cleaned list is empty, the change of directory fails and `c.args[0]` is out of range; the
same happens for a bare `cd` when the home directory cannot be entered. -/
theorem cdRun_index_panic :
    (commandParser cwdOS "cd" [">", "out"] = .ok (.cdComm ">" []) ∧
      cdTarget cwdOS ">" = .ok ">" ∧ cwdOS.chdir ">" = false ∧
      cdRun cwdOS ">" [] = .indexPanic) ∧
    (commandParser cwdOS "cd" [] = .ok (.cdComm "" []) ∧
      cdTarget cwdOS "" = .ok "/root" ∧ cwdOS.chdir "/root" = false ∧
      cdRun cwdOS "" [] = .indexPanic) := by
  refine ⟨⟨rfl, rfl, rfl, by decide⟩, ⟨rfl, rfl, rfl, by decide⟩⟩

/-! ## Theorems: read loop and plain lines -/

/-- Claim C16 fails on the code: the line made of one space and the newline is not the
bare newline, so it is not skipped; trimming leaves the empty string, `splitArguments`
returns no token, and `parts[0]` is out of range. -/
theorem mainParse_blank_line_panic :
    " \n" ≠ "\n" ∧ stringsTrimSpace " \n" = "" ∧
    splitArguments (stringsTrimSpace " \n") = [] ∧ mainParse " \n" = .indexPanic := by
  decide

/-- The `switch` on a plain character outside quotes: a space closes the token, any
other character is appended. -/
theorem splitStep_plain (a : List String) (cur : String) (r : Char)
    (hr : r ≠ '\'' ∧ r ≠ '"' ∧ r ≠ '\\') :
    splitStep ⟨a, cur, false, false, false⟩ r =
      if r = ' ' then
        (if 0 < cur.length then ⟨a ++ [cur], "", false, false, false⟩
         else ⟨a, cur, false, false, false⟩)
      else ⟨a, cur.push r, false, false, false⟩ := by
  obtain ⟨h1, h2, h3⟩ := hr
  simp [splitStep, h1, h2, h3]

/-- On a plain line, tokens never receive a space. -/
theorem splitFold_plain_no_space (l : List Char)
    (hl : ∀ r ∈ l, r ≠ '\'' ∧ r ≠ '"' ∧ r ≠ '\\') :
    ∀ (a : List String) (cur : String), (∀ t ∈ a, ' ' ∉ t.data) → ' ' ∉ cur.data →
      ∀ t ∈ splitFinish (l.foldl splitStep ⟨a, cur, false, false, false⟩), ' ' ∉ t.data := by
  induction l with
  | nil =>
    intro a cur ha hcur t ht
    simp only [List.foldl_nil, splitFinish] at ht
    split_ifs at ht
    · rcases List.mem_append.mp ht with h | h
      · exact ha t h
      · rw [List.mem_singleton.mp h]; exact hcur
    · exact ha t ht
  | cons r l ih =>
    intro a cur ha hcur
    have hr := hl r (List.mem_cons_self r l)
    have hrest : ∀ x ∈ l, x ≠ '\'' ∧ x ≠ '"' ∧ x ≠ '\\' :=
      fun x hx => hl x (List.mem_cons_of_mem r hx)
    rw [List.foldl_cons, splitStep_plain a cur r hr]
    by_cases hsp : r = ' '
    · rw [if_pos hsp]
      by_cases hpos : 0 < cur.length
      · rw [if_pos hpos]
        apply ih hrest
        · intro t ht
          rcases List.mem_append.mp ht with h | h
          · exact ha t h
          · rw [List.mem_singleton.mp h]; exact hcur
        · simp
      · rw [if_neg hpos]
        exact ih hrest a cur ha hcur
    · rw [if_neg hsp]
      apply ih hrest _ _ ha
      intro hm
      rw [String.data_push] at hm
      rcases List.mem_append.mp hm with h | h
      · exact hcur h
      · exact hsp (List.mem_singleton.mp h).symm

/-- Counterexample to C17 as stated: the plain line `a<TAB>b` is one token, and that
token contains the tab. -/
theorem splitArguments_tab_counterexample :
    plainLine "a\tb" ∧ splitArguments "a\tb" = ["a\tb"] ∧ '\t' ∈ ("a\tb" : String).data := by
  decide

/-- Claim C17, amended. Token boundaries are the space character outside any quote
state: for every input line without single quote, double quote and backslash, no token
returned by `splitArguments` contains a space (U+0020). -/
theorem splitArguments_no_space (input : String) (h : plainLine input) :
    ∀ t ∈ splitArguments input, ' ' ∉ t.data := by
  rw [splitArguments_eq_finish]
  exact splitFold_plain_no_space input.data h [] "" (by simp) (by simp)

/-- Witness for the amended C17: a line with a tab and repeated spaces. -/
theorem splitArguments_no_space_witness :
    plainLine " a\tb  c " ∧ "a\tb" ∈ splitArguments " a\tb  c " ∧
      ' ' ∉ ("a\tb" : String).data :=
  ⟨by decide, by decide, splitArguments_no_space " a\tb  c " (by decide) "a\tb" (by decide)⟩

/-- On a plain line the tokenizer, started outside quotes with `a` already emitted and
`cur` in the builder, emits the non-empty pieces between the spaces, the first piece
being continued from `cur`. -/
theorem splitFold_plain_ref (l : List Char)
    (hl : ∀ r ∈ l, r ≠ '\'' ∧ r ≠ '"' ∧ r ≠ '\\') :
    ∀ (a : List String) (cur : String),
      splitFinish (l.foldl splitStep ⟨a, cur, false, false, false⟩) =
        a ++ ((((l.splitOn ' ').modifyHead (fun x => cur.data ++ x)).filter
          (fun piece => !piece.isEmpty)).map String.mk) := by
  induction l with
  | nil =>
    intro a cur
    rcases cur with ⟨d⟩
    cases d with
    | nil => simp [splitFinish, List.splitOn, String.length]
    | cons c d => simp [splitFinish, List.splitOn, String.length]
  | cons r l ih =>
    intro a cur
    have hr := hl r (List.mem_cons_self r l)
    have hrest : ∀ x ∈ l, x ≠ '\'' ∧ x ≠ '"' ∧ x ≠ '\\' :=
      fun x hx => hl x (List.mem_cons_of_mem r hx)
    have hne : l.splitOn ' ' ≠ [] := List.splitOnP_ne_nil _ _
    rw [List.foldl_cons, splitStep_plain a cur r hr]
    by_cases hsp : r = ' '
    · subst hsp
      have hsplit : (' ' :: l).splitOn ' ' = [] :: l.splitOn ' ' := by
        simp [List.splitOn]
      have hid : (l.splitOn ' ').modifyHead (fun x => ("" : String).data ++ x)
          = l.splitOn ' ' := by
        cases hh : l.splitOn ' ' with
        | nil => rfl
        | cons y ys => simp [List.modifyHead]
      rw [if_pos rfl, hsplit]
      rcases cur with ⟨d⟩
      cases d with
      | nil =>
        have hz : ¬ (0 < (String.mk []).length) := by simp [String.length]
        rw [if_neg hz, ih hrest a (String.mk []), hid]
        simp [List.modifyHead]
      | cons c d =>
        have hz : 0 < (String.mk (c :: d)).length := by simp [String.length]
        rw [if_pos hz, ih hrest (a ++ [String.mk (c :: d)]) "", hid]
        simp [List.modifyHead]
    · have hsplit : (r :: l).splitOn ' ' = (l.splitOn ' ').modifyHead (List.cons r) := by
        simp [List.splitOn, hsp]
      rw [if_neg hsp, ih hrest a (cur.push r), hsplit]
      cases hh : l.splitOn ' ' with
      | nil => exact absurd hh hne
      | cons y ys => simp [List.modifyHead, String.data_push]

/-- Claim C18. For every input line without single quote, double quote and backslash,
`splitArguments` equals the reference definition: split the line on the space character
and drop the empty pieces. -/
theorem splitArguments_eq_splitOnSpaceRef (line : String) (h : plainLine line) :
    splitArguments line = splitOnSpaceRef line := by
  have key := splitFold_plain_ref line.data h [] ""
  have hid : (line.data.splitOn ' ').modifyHead (fun x => ("" : String).data ++ x)
      = line.data.splitOn ' ' := by
    cases hh : line.data.splitOn ' ' with
    | nil => rfl
    | cons y ys => simp [List.modifyHead]
  rw [hid] at key
  rw [splitArguments_eq_finish, SplitState.init, key, splitOnSpaceRef]
  simp

/-- Witness for C18: a line with leading, repeated and trailing spaces and a tab. -/
theorem splitArguments_eq_splitOnSpaceRef_witness :
    splitArguments "  ls  -l\t/tmp  x " = splitOnSpaceRef "  ls  -l\t/tmp  x " :=
  splitArguments_eq_splitOnSpaceRef "  ls  -l\t/tmp  x " (by decide)

theorem splitStep_flags (st : SplitState) (r : Char)
    (h : ¬ (st.inSingleQuotes = true ∧ st.inDoubleQuotes = true) ∧
      ¬ (st.withEscape = true ∧ st.inSingleQuotes = true)) :
    ¬ ((splitStep st r).inSingleQuotes = true ∧ (splitStep st r).inDoubleQuotes = true) ∧
      ¬ ((splitStep st r).withEscape = true ∧ (splitStep st r).inSingleQuotes = true) := by
  rcases st with ⟨a, cur, sq, dq, esc⟩
  unfold splitStep
  cases sq <;> cases dq <;> cases esc <;> simp at h ⊢ <;> split_ifs <;> simp

theorem splitFold_flags (l : List Char) :
    ∀ st : SplitState,
      (¬ (st.inSingleQuotes = true ∧ st.inDoubleQuotes = true) ∧
        ¬ (st.withEscape = true ∧ st.inSingleQuotes = true)) →
      ¬ ((l.foldl splitStep st).inSingleQuotes = true ∧
          (l.foldl splitStep st).inDoubleQuotes = true) ∧
        ¬ ((l.foldl splitStep st).withEscape = true ∧
          (l.foldl splitStep st).inSingleQuotes = true) := by
  induction l with
  | nil => intro st h; exact h
  | cons r l ih => intro st h; exact ih _ (splitStep_flags st r h)

/-- Claim C19. After scanning any prefix of any input line, the state of `splitArguments`
never has `inSingleQuotes` and `inDoubleQuotes` both true, and never has `withEscape`
true while `inSingleQuotes` is true. -/
theorem splitArguments_state_invariant (input : String) (n : Nat) :
    ¬ (((input.data.take n).foldl splitStep SplitState.init).inSingleQuotes = true ∧
        ((input.data.take n).foldl splitStep SplitState.init).inDoubleQuotes = true) ∧
    ¬ (((input.data.take n).foldl splitStep SplitState.init).withEscape = true ∧
        ((input.data.take n).foldl splitStep SplitState.init).inSingleQuotes = true) :=
  splitFold_flags (input.data.take n) SplitState.init (by simp [SplitState.init])

end GoShell
